import Mathlib

/-!
Verification development for the `genericspace` gravitational N-body core.

The source is embedded shallowly over the rationals: machine floats (`f32` in
`barnes_hut.rs`, the generic field `K` instantiated at `f64` in `physics.rs`)
become `ℚ`, and the square root (`f32::sqrt`, `pow 0.5` of the `Field` trait)
becomes an explicit function parameter `sq : ℚ → ℚ`, mirroring how the Rust
code itself is generic over the arithmetic of its field.  Rounding of floats
is not modelled; every concrete evaluation below uses inputs on which the
arithmetic is exact.
-/

/-! ## Bounds (src/barnes_hut.rs lines 9-65) -/

/-- Axis-aligned bounding box: `x`/`y` are the left/bottom edge. -/
structure Bounds where
  x : ℚ
  y : ℚ
  width : ℚ
  height : ℚ
deriving DecidableEq, Repr

/-- `Bounds::contains`: half-open membership test on both axes. -/
def Bounds.contains (b : Bounds) (px py : ℚ) : Bool :=
  decide (b.x ≤ px) && decide (px < b.x + b.width) &&
  decide (b.y ≤ py) && decide (py < b.y + b.height)

/-- `Bounds::center_x`. -/
def Bounds.center_x (b : Bounds) : ℚ :=
  b.x + b.width * (1/2)

/-- `Bounds::center_y`. -/
def Bounds.center_y (b : Bounds) : ℚ :=
  b.y + b.height * (1/2)

/-- `Bounds::quadrant`: 0=NW, 1=NE, 2=SW, 3=SE, with `>=` comparisons
against the center for the east/north sides. -/
def Bounds.quadrant (b : Bounds) (px py : ℚ) : ℕ :=
  let cx := b.center_x
  let cy := b.center_y
  let east := decide (cx ≤ px)
  let north := decide (cy ≤ py)
  match north, east with
  | true, false => 0
  | true, true => 1
  | false, false => 2
  | false, true => 3

/-- `Bounds::subdivide`: bounds of one quadrant.  The source diverges
(crashes) on an argument outside `0..4`; that branch is unreachable and is
embedded as returning the input bounds. -/
def Bounds.subdivide (b : Bounds) (q : ℕ) : Bounds :=
  let half_w := b.width * (1/2)
  let half_h := b.height * (1/2)
  let cx := b.center_x
  let cy := b.center_y
  match q with
  | 0 => ⟨b.x, cy, half_w, half_h⟩
  | 1 => ⟨cx, cy, half_w, half_h⟩
  | 2 => ⟨b.x, b.y, half_w, half_h⟩
  | 3 => ⟨cx, b.y, half_w, half_h⟩
  | _ => b

/-! ## Particle data model (src/physics.rs lines 6-20) -/

/-- `ObjectStatus` from `physics.rs`. -/
inductive ObjectStatus where
  | Default : ObjectStatus
  | Deleted : ObjectStatus
  | MergedInto : ℕ → ObjectStatus
deriving DecidableEq, Repr

/-- `PhysicsObject<K>` with `K` embedded as `ℚ`. -/
structure PhysicsObject where
  position_vector : ℚ × ℚ
  direction_vector : ℚ × ℚ
  acceleration_vector : ℚ × ℚ
  mass : ℚ
  status : ObjectStatus
deriving DecidableEq, Repr

/-- Placeholder particle used as the `getD` fall-back; all list accesses in
the embedded code stay in range, so it is never observed. -/
def dummyObj : PhysicsObject :=
  ⟨(0, 0), (0, 0), (0, 0), 0, ObjectStatus.Default⟩

/-- The Rust `elements[j].status = s` in-place field assignment. -/
def setStatus (e : PhysicsObject) (s : ObjectStatus) : PhysicsObject :=
  { e with status := s }

/-! ## The quadtree (src/barnes_hut.rs lines 67-232)

`children: Option<Box<[QuadTree; 4]>>` is embedded with an explicit mutual
inductive so that all tree recursions are structural. -/

mutual

inductive QuadTree where
  | mk (bounds : Bounds) (center_of_mass : ℚ × ℚ) (total_mass : ℚ)
       (children : QuadChildren) (particle_index : Option ℕ) : QuadTree

inductive QuadChildren where
  | leaf : QuadChildren
  | four (nw ne sw se : QuadTree) : QuadChildren

end

def QuadTree.bounds : QuadTree → Bounds
  | .mk b _ _ _ _ => b

def QuadTree.center_of_mass : QuadTree → ℚ × ℚ
  | .mk _ c _ _ _ => c

def QuadTree.total_mass : QuadTree → ℚ
  | .mk _ _ tm _ _ => tm

def QuadTree.children : QuadTree → QuadChildren
  | .mk _ _ _ ch _ => ch

def QuadTree.particle_index : QuadTree → Option ℕ
  | .mk _ _ _ _ pidx => pidx

/-- `true` iff the node has no children (`children.is_none()` in the source). -/
def isLeafC : QuadChildren → Bool
  | .leaf => true
  | .four _ _ _ _ => false

/-- `QuadTree::empty`. -/
def emptyNode (b : Bounds) : QuadTree :=
  .mk b (0, 0) 0 .leaf none

/-- Child accessor for stating properties; out-of-range or leaf access
returns a degenerate empty node (never relied on). -/
def childOf : QuadTree → ℕ → QuadTree
  | .mk _ _ _ (.four a b c d) _, q =>
      if q = 0 then a else if q = 1 then b else if q = 2 then c else d
  | _, _ => emptyNode ⟨0, 0, 0, 0⟩

/-- `QuadTree::insert` specialised to a node known to be empty.  In the
occupied-leaf branch of `insert` the source calls
`children[quadrant].insert(index, pos, mass)` on a freshly created empty
child; that call performs no further recursion, and is unfolded here so that
`insert` itself is structurally recursive.  The lemma
`insert_emptyNode_eq` proves the unfolding equal to `insert` on an empty
node. -/
def insertIntoEmptyNode (b : Bounds) (index : ℕ) (pos : ℚ × ℚ) (mass : ℚ) :
    QuadTree :=
  if (b.contains pos.1 pos.2) = false then emptyNode b
  else
    let new_total_mass := 0 + mass
    let com' :=
      if 0 < new_total_mass then
        ((0 * 0 + pos.1 * mass) / new_total_mass,
         (0 * 0 + pos.2 * mass) / new_total_mass)
      else ((0 : ℚ), (0 : ℚ))
    .mk b com' new_total_mass .leaf (some index)

/-- The three in-place field assignments of `barnes_hut.rs` lines 148-150:
`children[old_quadrant].particle_index = Some(old_idx); …total_mass =
old_mass; …center_of_mass = old_pos`.  Bounds and children are kept. -/
def overwriteChild (t : QuadTree) (old_idx : ℕ) (old_mass : ℚ)
    (old_pos : ℚ × ℚ) : QuadTree :=
  match t with
  | .mk bb _ _ hh _ => .mk bb old_pos old_mass hh (some old_idx)

/-- Apply `overwriteChild` to the `q`-th child of a four-tuple. -/
def overwriteAt (q : ℕ) (old_idx : ℕ) (old_mass : ℚ) (old_pos : ℚ × ℚ) :
    QuadChildren → QuadChildren
  | .leaf => .leaf
  | .four a b c d =>
      if q = 0 then .four (overwriteChild a old_idx old_mass old_pos) b c d
      else if q = 1 then .four a (overwriteChild b old_idx old_mass old_pos) c d
      else if q = 2 then .four a b (overwriteChild c old_idx old_mass old_pos) d
      else .four a b c (overwriteChild d old_idx old_mass old_pos)

/-- Fresh subdivision in which the `q`-th child has already received the new
particle (the source first builds four empty children, then inserts into
`children[quadrant]`). -/
def subdividedWith (b : Bounds) (q : ℕ) (index : ℕ) (pos : ℚ × ℚ)
    (mass : ℚ) : QuadChildren :=
  let newChild := insertIntoEmptyNode (b.subdivide q) index pos mass
  if q = 0 then
    .four newChild (emptyNode (b.subdivide 1)) (emptyNode (b.subdivide 2))
      (emptyNode (b.subdivide 3))
  else if q = 1 then
    .four (emptyNode (b.subdivide 0)) newChild (emptyNode (b.subdivide 2))
      (emptyNode (b.subdivide 3))
  else if q = 2 then
    .four (emptyNode (b.subdivide 0)) (emptyNode (b.subdivide 1)) newChild
      (emptyNode (b.subdivide 3))
  else
    .four (emptyNode (b.subdivide 0)) (emptyNode (b.subdivide 1))
      (emptyNode (b.subdivide 2)) newChild

/-- `QuadTree::insert` (src/barnes_hut.rs lines 102-161).

The occupied-leaf branch reproduces the source literally: after the
center-of-mass update of lines 109-114 has already folded the new particle
in, line 130 reads `self.center_of_mass` as `old_pos`, so the previous
resident is re-filed under the *post*-insertion aggregate position; lines
148-150 then assign the old particle's data directly into
`children[old_quadrant]`, overwriting whatever is there; lines 154-156
recompute this node's center of mass from `old_pos`. -/
def QuadTree.insert (index : ℕ) (pos : ℚ × ℚ) (mass : ℚ) : QuadTree → QuadTree
  | .mk b com tm ch pidx =>
    if (b.contains pos.1 pos.2) = false then .mk b com tm ch pidx
    else
      let new_total_mass := tm + mass
      let com' :=
        if 0 < new_total_mass then
          ((com.1 * tm + pos.1 * mass) / new_total_mass,
           (com.2 * tm + pos.2 * mass) / new_total_mass)
        else com
      match ch with
      | .four c0 c1 c2 c3 =>
        let q := b.quadrant pos.1 pos.2
        let ch' :=
          if q = 0 then QuadChildren.four (QuadTree.insert index pos mass c0) c1 c2 c3
          else if q = 1 then QuadChildren.four c0 (QuadTree.insert index pos mass c1) c2 c3
          else if q = 2 then QuadChildren.four c0 c1 (QuadTree.insert index pos mass c2) c3
          else QuadChildren.four c0 c1 c2 (QuadTree.insert index pos mass c3)
        .mk b com' new_total_mass ch' pidx
      | .leaf =>
        match pidx with
        | none => .mk b com' new_total_mass .leaf (some index)
        | some old_idx =>
          let old_pos := com'
          let old_mass := new_total_mass - mass
          let q := b.quadrant pos.1 pos.2
          let ch0 := subdividedWith b q index pos mass
          let oq := b.quadrant old_pos.1 old_pos.2
          let ch1 := overwriteAt oq old_idx old_mass old_pos ch0
          .mk b
            ((old_pos.1 * old_mass + pos.1 * mass) / new_total_mass,
             (old_pos.2 * old_mass + pos.2 * mass) / new_total_mass)
            new_total_mass ch1 none

/-- `QuadTree::build` (lines 91-99): insert every particle, in list order,
with its index, into an empty root. -/
def build (particles : List PhysicsObject) (bounds : Bounds) : QuadTree :=
  particles.enum.foldl
    (fun root ip => QuadTree.insert ip.1 ip.2.position_vector ip.2.mass root)
    (emptyNode bounds)

mutual

/-- Sum of the masses of the particles whose indices are stored in the
subtree, looked up in the particle list the tree was built from. -/
def storedMass (ps : List PhysicsObject) : QuadTree → ℚ
  | .mk _ _ _ ch pidx =>
    (match pidx with
     | some i => (ps.getD i dummyObj).mass
     | none => 0) + storedMassC ps ch

/-- Children part of `storedMass`. -/
def storedMassC (ps : List PhysicsObject) : QuadChildren → ℚ
  | .leaf => 0
  | .four a b c d =>
    storedMass ps a + storedMass ps b + storedMass ps c + storedMass ps d

end

/-- The mass-weighted average position of a list of particles (the quantity
the specification calls the center of mass). -/
def massWeightedCom (ps : List PhysicsObject) : ℚ × ℚ :=
  ((ps.map (fun p => p.mass * p.position_vector.1)).sum /
     (ps.map (fun p => p.mass)).sum,
   (ps.map (fun p => p.mass * p.position_vector.2)).sum /
     (ps.map (fun p => p.mass)).sum)

/-! ## Euclidean vector space operations (src/types.rs lines 31-67)

The code is generic over a `MathSpace`; the only instance is
`EuclideanSpace`, whose `distance` takes `pow 0.5` of the scalar product.
That square root is the parameter `sq` below. -/

/-- `EuclideanSpace::add`. -/
def vadd (a b : ℚ × ℚ) : ℚ × ℚ :=
  (a.1 + b.1, a.2 + b.2)

/-- `EuclideanSpace::sub` (`first - second`, componentwise). -/
def vsub (a b : ℚ × ℚ) : ℚ × ℚ :=
  (a.1 - b.1, a.2 - b.2)

/-- `EuclideanSpace::mul` (scalar times vector). -/
def smul (s : ℚ) (v : ℚ × ℚ) : ℚ × ℚ :=
  (s * v.1, s * v.2)

/-- `EuclideanSpace::scalar_product`. -/
def scalar_product (a b : ℚ × ℚ) : ℚ :=
  a.1 * b.1 + a.2 * b.2

/-- `EuclideanSpace::distance(first, second)`: square root (the parameter
`sq`) of the scalar product of `second - first` with itself. -/
def distance (sq : ℚ → ℚ) (first second : ℚ × ℚ) : ℚ :=
  sq (scalar_product (vsub second first) (vsub second first))

/-! ## PhysicsSpace (src/physics.rs lines 102-127) -/

/-- `PhysicsSpace<K, S>`; the math space is passed separately as `sq`. -/
structure PhysicsSpace where
  elements : List PhysicsObject
  gravitational_constant : ℚ
  radius : ℚ
  epsilon : ℚ
  merge_counter : ℚ
deriving DecidableEq, Repr

/-! ## Direct-mode acceleration (src/physics.rs lines 176-201) -/

/-- One summand of `PhysicsSpace::acceleration`: the effect of `e2` on a
particle whose (new) position is `e1pos` and whose position before the
step was `old_pos`.  A summand is zero when either computed distance is
zero. -/
def accTerm (sq : ℚ → ℚ) (g : ℚ) (e1pos old_pos : ℚ × ℚ)
    (e2 : PhysicsObject) : ℚ × ℚ :=
  let dist := distance sq e2.position_vector e1pos
  let old_distance := distance sq e2.position_vector old_pos
  if ¬(dist = 0 ∨ old_distance = 0) then
    let distance_vector := vsub e2.position_vector e1pos
    let distance_unit_vector := smul dist⁻¹ distance_vector
    let acc := e2.mass * g * (dist * dist)⁻¹
    smul acc distance_unit_vector
  else ((0 : ℚ), (0 : ℚ))

/-- `PhysicsSpace::acceleration`: map the per-source term over the whole
element list and fold with vector addition. -/
def acceleration (sq : ℚ → ℚ) (phys : PhysicsSpace) (e1 : PhysicsObject)
    (old_pos : ℚ × ℚ) : ℚ × ℚ :=
  (phys.elements.map
      (accTerm sq phys.gravitational_constant e1.position_vector old_pos)).foldl
    vadd ((0 : ℚ), (0 : ℚ))

/-! ## Leapfrog integration (src/physics.rs lines 129-160) -/

/-- `PhysicsSpace::leapfrog_integration`. -/
def leapfrog_integration (sq : ℚ → ℚ) (phys : PhysicsSpace)
    (obj : PhysicsObject) : PhysicsObject :=
  let zeropointfive : ℚ := ((1 : ℚ) + 1)⁻¹
  let next_pos :=
    vadd (vadd obj.position_vector obj.direction_vector)
      (smul zeropointfive obj.acceleration_vector)
  let next_acc :=
    acceleration sq phys { obj with position_vector := next_pos }
      obj.position_vector
  let next_dir :=
    vadd obj.direction_vector
      (smul zeropointfive (vadd next_acc obj.acceleration_vector))
  { position_vector := next_pos
    direction_vector := next_dir
    acceleration_vector := next_acc
    mass := obj.mass
    status := obj.status }

/-! ## Merging (src/physics.rs lines 203-235) -/

/-- `PhysicsSpace::merge`: mass-weighted averages of position, direction
and acceleration; sum of masses; status `Default`. -/
def PhysicsSpace.merge (_phys : PhysicsSpace) (f s : PhysicsObject) :
    PhysicsObject :=
  { position_vector :=
      smul (f.mass + s.mass)⁻¹
        (vadd (smul f.mass f.position_vector) (smul s.mass s.position_vector))
    direction_vector :=
      smul (f.mass + s.mass)⁻¹
        (vadd (smul f.mass f.direction_vector) (smul s.mass s.direction_vector))
    acceleration_vector :=
      smul (f.mass + s.mass)⁻¹
        (vadd (smul f.mass f.acceleration_vector)
          (smul s.mass s.acceleration_vector))
    status := ObjectStatus.Default
    mass := f.mass + s.mass }

/-! ## The tick (src/physics.rs lines 248-321)

The `for i in 0..elements.len()` loop with its nested `checkMerge`
`for j in i+1..phys.elements.len()` loop is embedded as fuel recursion:
`cmLoop … j m` runs the inner body for `j, j+1, …, j+m-1`, and
`tickLoop … i m` runs the outer body for `i, i+1, …, i+m-1`.  All reads
and writes go through `List.getD`/`List.set` at the same indices and in
the same order as the source. -/

/-- Body of the inner `checkMerge` loop for one `j`. -/
def cmBody (sq : ℚ → ℚ) (phys : PhysicsSpace) (els : List PhysicsObject)
    (i j : ℕ) : List PhysicsObject :=
  let ei := els.getD i dummyObj
  let ej := els.getD j dummyObj
  if distance sq ei.position_vector ej.position_vector < phys.epsilon then
    match ei.status with
    | ObjectStatus.Default =>
        (els.set i (phys.merge ei ej)).set j
          (setStatus ej (ObjectStatus.MergedInto i))
    | ObjectStatus.MergedInto k =>
        (els.set k (phys.merge (els.getD k dummyObj) ej)).set j
          (setStatus ej (ObjectStatus.MergedInto k))
    | ObjectStatus.Deleted => els
  else els

/-- The inner `checkMerge` loop, `m` iterations starting at `j`. -/
def cmLoop (sq : ℚ → ℚ) (phys : PhysicsSpace) (els : List PhysicsObject)
    (i j m : ℕ) : List PhysicsObject :=
  match m with
  | 0 => els
  | m + 1 => cmLoop sq phys (cmBody sq phys els i j) i (j + 1) m

/-- `checkMerge`: scan all `j` from `i+1` to `phys.elements.len() - 1`. -/
def checkMerge (sq : ℚ → ℚ) (phys : PhysicsSpace) (els : List PhysicsObject)
    (i : ℕ) : List PhysicsObject :=
  cmLoop sq phys els i (i + 1) (phys.elements.length - (i + 1))

/-- Body of the outer tick loop for one `i`: prune by distance from the
origin, otherwise run the merge scan; particles already merged away still
run the merge scan; deleted particles are skipped. -/
def tickBody (sq : ℚ → ℚ) (phys : PhysicsSpace) (els : List PhysicsObject)
    (i : ℕ) : List PhysicsObject :=
  let ei := els.getD i dummyObj
  match ei.status with
  | ObjectStatus.Default =>
      if phys.radius < distance sq ((0 : ℚ), (0 : ℚ)) ei.position_vector then
        els.set i (setStatus ei ObjectStatus.Deleted)
      else checkMerge sq phys els i
  | ObjectStatus.MergedInto _ => checkMerge sq phys els i
  | ObjectStatus.Deleted => els

/-- The outer tick loop, `m` iterations starting at index `i`. -/
def tickLoop (sq : ℚ → ℚ) (phys : PhysicsSpace) (els : List PhysicsObject)
    (i m : ℕ) : List PhysicsObject :=
  match m with
  | 0 => els
  | m + 1 => tickLoop sq phys (tickBody sq phys els i) (i + 1) m

/-- The element list after the prune/merge-resolution loop of a tick
(everything in `tick` before `retain`). -/
def mergePassResult (sq : ℚ → ℚ) (phys : PhysicsSpace) :
    List PhysicsObject :=
  tickLoop sq phys phys.elements 0 phys.elements.length

/-- `elements.retain(|e| e.status == ObjectStatus::Default)`. -/
def retainDefault (els : List PhysicsObject) : List PhysicsObject :=
  els.filter (fun e => decide (e.status = ObjectStatus.Default))

/-- `PhysicsSpace::tick`: prune/merge loop, retain, then leapfrog
integration of every surviving particle against the retained list. -/
def PhysicsSpace.tick (sq : ℚ → ℚ) (phys : PhysicsSpace) : PhysicsSpace :=
  let els := retainDefault (mergePassResult sq phys)
  let phys1 := { phys with elements := els }
  { phys1 with elements := els.map (leapfrog_integration sq phys1) }

/-- Total mass of the live (status `Default`) particles of a list. -/
def liveMass (els : List PhysicsObject) : ℚ :=
  ((retainDefault els).map (fun e => e.mass)).sum

/-- No slot of the list has been redirected into index `f`
(`MergedInto f` appears nowhere).  This is the key invariant for the
pruning argument: while it holds, slot `f` is never the target of a merge
write, so only status-only writes can touch it. -/
def NoTarget (f : ℕ) (els : List PhysicsObject) : Prop :=
  ∀ j : ℕ, (els.getD j dummyObj).status ≠ ObjectStatus.MergedInto f

/-! ## Tree force query (src/barnes_hut.rs lines 179-231) -/

/-- `QuadTree::calculate_force`: zero for a massless node; zero when the
node's resident particle index equals `skip_index`; the softened point-mass
law when the node is a leaf or passes the opening-angle test
`width² < theta²·d²` (with `width` the larger side length); otherwise the
sum of the four children's contributions.  The square root of the source
(`dist_sq_soft.sqrt()`) is the parameter `sq`. -/
def calculate_force (sq : ℚ → ℚ) (pos : ℚ × ℚ) (theta g softening_sq : ℚ)
    (skip_index : ℕ) : QuadTree → ℚ × ℚ
  | .mk b com tm ch pidx =>
    if tm = 0 then ((0 : ℚ), (0 : ℚ))
    else
      let dx := com.1 - pos.1
      let dy := com.2 - pos.2
      let dist_sq := dx * dx + dy * dy
      if pidx = some skip_index then ((0 : ℚ), (0 : ℚ))
      else
        let width := max b.width b.height
        let is_leaf := isLeafC ch
        let is_far_enough := decide (width * width < theta * theta * dist_sq)
        if is_leaf || is_far_enough then
          let dist_sq_soft := dist_sq + softening_sq
          let dist_soft := sq dist_sq_soft
          let factor := tm * g * (dist_sq_soft * dist_soft)⁻¹
          (dx * factor, dy * factor)
        else
          match ch with
          | .leaf => ((0 : ℚ), (0 : ℚ))
          | .four c0 c1 c2 c3 =>
            vadd
              (vadd
                (vadd
                  (vadd ((0 : ℚ), (0 : ℚ))
                    (calculate_force sq pos theta g softening_sq skip_index c0))
                  (calculate_force sq pos theta g softening_sq skip_index c1))
                (calculate_force sq pos theta g softening_sq skip_index c2))
              (calculate_force sq pos theta g softening_sq skip_index c3)

/-! ## Claim-side definitions

These are stated from the specification's wording, for comparison with the
embedded source functions. -/

/-- The softened (Plummer) point-mass acceleration law as the specification
states it: displacement `(dx, dy)`, squared distance `d²`, softening
constant `eps_sq`; `r² = d² + ε²`, `a = (dx,dy) · (G·m) / (r² · sqrt r²)`. -/
def plummerAccel (sq : ℚ → ℚ) (g eps_sq m dx dy : ℚ) : ℚ × ℚ :=
  let d2 := dx * dx + dy * dy
  let r2 := d2 + eps_sq
  (dx * (g * m * (r2 * sq r2)⁻¹), dy * (g * m * (r2 * sq r2)⁻¹))

/-- The direct-mode force law as claim C1 states it: the pairwise sum, over
all other particles, of the softened gravitational law with the configured
softening constant `phys.epsilon`. -/
def specSoftenedDirectAccel (sq : ℚ → ℚ) (phys : PhysicsSpace) (i : ℕ) :
    ℚ × ℚ :=
  let pos := (phys.elements.getD i dummyObj).position_vector
  ((phys.elements.enum.filter (fun jp => decide (jp.1 ≠ i))).map
      (fun jp =>
        plummerAccel sq phys.gravitational_constant
          (phys.epsilon * phys.epsilon) jp.2.mass
          (jp.2.position_vector.1 - pos.1)
          (jp.2.position_vector.2 - pos.2))).foldl
    vadd ((0 : ℚ), (0 : ℚ))

/-- The unsoftened inverse-square law that the direct-mode code actually
implements, written in closed form: zero when either computed distance is
zero, otherwise `(dx,dy) · (G·m) / dist³` with `dist` the computed
distance. -/
def unsoftenedTerm (sq : ℚ → ℚ) (g : ℚ) (e1pos old_pos : ℚ × ℚ)
    (e2 : PhysicsObject) : ℚ × ℚ :=
  let dist := distance sq e2.position_vector e1pos
  let old_distance := distance sq e2.position_vector old_pos
  if dist = 0 ∨ old_distance = 0 then ((0 : ℚ), (0 : ℚ))
  else
    smul (g * e2.mass * (dist * dist * dist)⁻¹)
      (vsub e2.position_vector e1pos)

/-- The pairwise sum of `unsoftenedTerm` over the whole element list. -/
def unsoftenedDirectSum (sq : ℚ → ℚ) (phys : PhysicsSpace)
    (e1pos old_pos : ℚ × ℚ) : ℚ × ℚ :=
  (phys.elements.map
      (unsoftenedTerm sq phys.gravitational_constant e1pos old_pos)).foldl
    vadd ((0 : ℚ), (0 : ℚ))

/-! ## Concrete instances used by the evaluation theorems

`sqT` is a concrete instantiation of the square-root parameter: a finite
table that is exact on every value the evaluations below encounter (see
`sqT_entries_exact`). -/

/-- Table square root: exact on the perfect squares appearing in the
concrete evaluations, `0` elsewhere. -/
def sqT (q : ℚ) : ℚ :=
  if q = 0 then 0
  else if q = 1 then 1
  else if q = 4 then 2
  else if q = 9 then 3
  else if q = 9/4 then 3/2
  else if q = 25 then 5
  else if q = 2500 then 50
  else if q = 10000 then 100
  else if q = 11025 then 105
  else 0

/-- The shared root bounds for the tree evaluations. -/
def squareB : Bounds := ⟨0, 0, 4, 4⟩

/-- Particle at `(1, 3.9)`, mass 1 (claim C2 evaluation). -/
def c2p0 : PhysicsObject := ⟨(1, 39/10), (0, 0), (0, 0), 1, .Default⟩

/-- Particle at `(3.9, 1)`, mass 1 (claim C2 evaluation). -/
def c2p1 : PhysicsObject := ⟨(39/10, 1), (0, 0), (0, 0), 1, .Default⟩

/-- Particle at `(1, 1)`, mass 1 (claims C3 and C4). -/
def c3p0 : PhysicsObject := ⟨(1, 1), (0, 0), (0, 0), 1, .Default⟩

/-- Particle at `(3.8, 3.8)`, mass 3 (claim C3). -/
def c3p1 : PhysicsObject := ⟨(19/5, 19/5), (0, 0), (0, 0), 3, .Default⟩

/-- Particle at `(3, 3)`, mass 1 (claim C4). -/
def c4p1 : PhysicsObject := ⟨(3, 3), (0, 0), (0, 0), 1, .Default⟩

/-- Two-particle direct-mode space for claim C1: masses 1 at `(0,0)` and
`(3,0)`, `G = 1`, softening constant 4. -/
def physC1 : PhysicsSpace :=
  ⟨[⟨(0, 0), (0, 0), (0, 0), 1, .Default⟩,
    ⟨(3, 0), (0, 0), (0, 0), 1, .Default⟩], 1, 30000, 4, 0⟩

/-- Three mutually-close particles for claim C5: positions `(0,0)`, `(1,0)`,
`(2,0)`, each of mass 1, merge threshold `epsilon = 15`. -/
def physC5 : PhysicsSpace :=
  ⟨[⟨(0, 0), (0, 0), (0, 0), 1, .Default⟩,
    ⟨(1, 0), (0, 0), (0, 0), 1, .Default⟩,
    ⟨(2, 0), (0, 0), (0, 0), 1, .Default⟩], 3/10, 30000, 15, 0⟩

/-- One fast particle for claim C6: position `(5,0)` inside the removal
radius 10, velocity `(100,0)`. -/
def physC6 : PhysicsSpace :=
  ⟨[⟨(5, 0), (100, 0), (0, 0), 1, .Default⟩], 3/10, 10, 1, 0⟩

/-- One far particle for the claim C6 witness: position `(50,0)`, removal
radius 10. -/
def physC6W : PhysicsSpace :=
  ⟨[⟨(50, 0), (0, 0), (0, 0), 1, .Default⟩], 3/10, 10, 1, 0⟩

/-- A one-particle leaf tree for the claim C8 witness: resident index 0,
total mass 1, center of mass `(3, 4)`. -/
def c8tW : QuadTree := .mk ⟨0, 0, 1, 1⟩ (3, 4) 1 .leaf (some 0)

/-! ## Sanity lemmas -/

/-- `QuadTree.insert` on an empty node agrees with the unfolded
`insertIntoEmptyNode` used inside the occupied-leaf branch. -/
theorem insert_emptyNode_eq (b : Bounds) (index : ℕ) (pos : ℚ × ℚ)
    (mass : ℚ) :
    QuadTree.insert index pos mass (emptyNode b) =
      insertIntoEmptyNode b index pos mass := by
  unfold QuadTree.insert insertIntoEmptyNode emptyNode
  cases h : b.contains pos.1 pos.2 <;> simp [h]

/-- Every entry of the square-root table squares back to its argument, so
`sqT` agrees with the real square root on the values the evaluations
reach. -/
theorem sqT_entries_exact :
    sqT 0 = 0 ∧ sqT 1 * sqT 1 = 1 ∧ sqT 4 * sqT 4 = 4 ∧
    sqT 9 * sqT 9 = 9 ∧ sqT (9/4) * sqT (9/4) = 9/4 ∧
    sqT 25 * sqT 25 = 25 ∧ sqT 2500 * sqT 2500 = 2500 ∧
    sqT 10000 * sqT 10000 = 10000 ∧ sqT 11025 * sqT 11025 = 11025 ∧
    (∀ q : ℚ, 0 ≤ sqT q) := by
  refine ⟨by norm_num [sqT], by norm_num [sqT], by norm_num [sqT],
    by norm_num [sqT], by norm_num [sqT], by norm_num [sqT],
    by norm_num [sqT], by norm_num [sqT], by norm_num [sqT], ?_⟩
  intro q
  unfold sqT
  split <;> norm_num
  split <;> norm_num
  split <;> norm_num
  split <;> norm_num
  split <;> norm_num
  split <;> norm_num
  split <;> norm_num
  split <;> norm_num
  split <;> norm_num

/-! ## Claim theorems -/

/-- Claim C2 (status: code bug).  Building a tree over particle 0 at
`(1, 3.9)` and particle 1 at `(3.9, 1)` (each mass 1, root bounds
`[0,4)²`): the pre-insertion aggregate of the occupied leaf is particle 0's
own position `(1, 3.9)`, whose quadrant is NW (`0`), so the claim requires
the old particle to be re-filed in child 0 at `(1, 3.9)`.  The code instead
reads the center of mass *after* folding the new particle in, `(2.45,
2.45)`, and files the old particle in the NE child (`1`) at that position,
leaving the NW child empty. -/
theorem c2_insert_uses_post_insertion_aggregate :
    (childOf (build [c2p0, c2p1] squareB) 1).particle_index = some 0 ∧
    (childOf (build [c2p0, c2p1] squareB) 1).center_of_mass =
      (49/20, 49/20) ∧
    (childOf (build [c2p0, c2p1] squareB) 0).particle_index = none ∧
    (childOf (build [c2p0, c2p1] squareB) 0).total_mass = 0 ∧
    squareB.quadrant (1 : ℚ) (39/10) = 0 ∧
    ((49/20 : ℚ), (49/20 : ℚ)) ≠ ((1 : ℚ), (39/10 : ℚ)) := by
  norm_num [build, QuadTree.insert, insertIntoEmptyNode, emptyNode,
    subdividedWith, overwriteAt, overwriteChild, squareB, c2p0, c2p1,
    Bounds.contains, Bounds.quadrant, Bounds.center_x, Bounds.center_y,
    Bounds.subdivide, childOf, QuadTree.center_of_mass, QuadTree.total_mass,
    QuadTree.particle_index, List.enum]

/-- Claim C3 (status: code bug).  Building over particle 0 at `(1,1)` mass 1
and particle 1 at `(3.8, 3.8)` mass 3 (root bounds `[0,4)²`): the root's
`total_mass` is 4, but the occupied-leaf branch re-files the old particle at
the already-updated center of mass `(3.1, 3.1)`, whose quadrant coincides
with the new particle's quadrant, so the direct child assignment of lines
148-150 overwrites the just-inserted particle 1; only particle 0 (mass 1)
remains stored in the subtree. -/
theorem c3_total_mass_exceeds_stored_mass :
    (build [c3p0, c3p1] squareB).total_mass = 4 ∧
    storedMass [c3p0, c3p1] (build [c3p0, c3p1] squareB) = 1 := by
  norm_num [build, QuadTree.insert, insertIntoEmptyNode, emptyNode,
    subdividedWith, overwriteAt, overwriteChild, squareB, c3p0, c3p1,
    Bounds.contains, Bounds.quadrant, Bounds.center_x, Bounds.center_y,
    Bounds.subdivide, QuadTree.total_mass, storedMass, storedMassC,
    List.enum, List.getD]

/-- Claim C4 (status: code bug).  For particles at `(1,1)` and `(3,3)`,
each of mass 1 (root bounds `[0,4)²`), the mass-weighted average position
is `(2,2)`; the built root's `center_of_mass` is `(2.5, 2.5)` (lines
154-156 recompute it from the corrupted `old_pos`, double-counting the new
particle), and inserting the same two particles in the opposite order gives
`(1.5, 1.5)`, so the aggregate is also insertion-order dependent. -/
theorem c4_center_of_mass_wrong_and_order_dependent :
    massWeightedCom [c3p0, c4p1] = (2, 2) ∧
    (build [c3p0, c4p1] squareB).center_of_mass = (5/2, 5/2) ∧
    (build [c4p1, c3p0] squareB).center_of_mass = (3/2, 3/2) ∧
    (build [c3p0, c4p1] squareB).center_of_mass ≠
      massWeightedCom [c3p0, c4p1] := by
  norm_num [build, QuadTree.insert, insertIntoEmptyNode, emptyNode,
    subdividedWith, overwriteAt, overwriteChild, squareB, c3p0, c4p1,
    Bounds.contains, Bounds.quadrant, Bounds.center_x, Bounds.center_y,
    Bounds.subdivide, QuadTree.center_of_mass, massWeightedCom, List.enum]

/-- Claim C9 (status: confirmed).  `Bounds.contains` holds exactly on the
half-open square `[origin, origin+size)` on both axes; `Bounds.quadrant`
classifies against the center with `>=` for the east/north comparisons, so
center-line points go north/east; and the four `Bounds.subdivide` regions
tile the parent exactly: a point is in the parent iff it is in exactly one
of the four children. -/
theorem c9_bounds_contains_quadrant_tiling :
    (∀ (b : Bounds) (px py : ℚ),
        b.contains px py = true ↔
          b.x ≤ px ∧ px < b.x + b.width ∧ b.y ≤ py ∧ py < b.y + b.height) ∧
    (∀ (b : Bounds) (px py : ℚ),
        (b.quadrant px py = 0 ↔ px < b.center_x ∧ b.center_y ≤ py) ∧
        (b.quadrant px py = 1 ↔ b.center_x ≤ px ∧ b.center_y ≤ py) ∧
        (b.quadrant px py = 2 ↔ px < b.center_x ∧ py < b.center_y) ∧
        (b.quadrant px py = 3 ↔ b.center_x ≤ px ∧ py < b.center_y)) ∧
    (∀ (b : Bounds) (px py : ℚ),
        b.contains px py = true ↔
          ∃! q : Fin 4, (b.subdivide (q : ℕ)).contains px py = true) := by
  have hC : ∀ (b : Bounds) (px py : ℚ),
      b.contains px py = true ↔
        b.x ≤ px ∧ px < b.x + b.width ∧ b.y ≤ py ∧ py < b.y + b.height := by
    intro b px py
    simp [Bounds.contains, and_assoc]
  refine ⟨hC, ?_, ?_⟩
  · intro b px py
    rcases le_or_lt b.center_x px with h1 | h1 <;>
      rcases le_or_lt b.center_y py with h2 | h2
    · simp [Bounds.quadrant, h1, h2, not_lt.mpr h1, not_lt.mpr h2]
    · simp [Bounds.quadrant, h1, h2, not_lt.mpr h1, h2.not_le]
    · simp [Bounds.quadrant, h1, h2, h1.not_le, not_lt.mpr h2]
    · simp [Bounds.quadrant, h1, h2, h1.not_le, h2.not_le]
  · intro b px py
    constructor
    · intro h
      obtain ⟨hx1, hx2, hy1, hy2⟩ := (hC b px py).mp h
      rcases le_or_lt b.center_x px with hx | hx <;>
        rcases le_or_lt b.center_y py with hy | hy
      · refine ⟨1, (hC _ px py).mpr ?_, ?_⟩
        · refine ⟨hx, ?_, hy, ?_⟩ <;>
            simp only [Bounds.subdivide, Bounds.center_x, Bounds.center_y] at * <;>
            linarith
        · intro q' hq'
          have hq := (hC _ px py).mp hq'
          fin_cases q' <;>
            simp only [Bounds.subdivide, Bounds.center_x, Bounds.center_y,
              Fin.isValue] at hq hx hy ⊢ <;>
            first
              | rfl
              | (exfalso; obtain ⟨a1, a2, a3, a4⟩ := hq; linarith)
      · refine ⟨3, (hC _ px py).mpr ?_, ?_⟩
        · refine ⟨hx, ?_, hy1, ?_⟩ <;>
            simp only [Bounds.subdivide, Bounds.center_x, Bounds.center_y] at * <;>
            linarith
        · intro q' hq'
          have hq := (hC _ px py).mp hq'
          fin_cases q' <;>
            simp only [Bounds.subdivide, Bounds.center_x, Bounds.center_y,
              Fin.isValue] at hq hx hy ⊢ <;>
            first
              | rfl
              | (exfalso; obtain ⟨a1, a2, a3, a4⟩ := hq; linarith)
      · refine ⟨0, (hC _ px py).mpr ?_, ?_⟩
        · refine ⟨hx1, ?_, hy, ?_⟩ <;>
            simp only [Bounds.subdivide, Bounds.center_x, Bounds.center_y] at * <;>
            linarith
        · intro q' hq'
          have hq := (hC _ px py).mp hq'
          fin_cases q' <;>
            simp only [Bounds.subdivide, Bounds.center_x, Bounds.center_y,
              Fin.isValue] at hq hx hy ⊢ <;>
            first
              | rfl
              | (exfalso; obtain ⟨a1, a2, a3, a4⟩ := hq; linarith)
      · refine ⟨2, (hC _ px py).mpr ?_, ?_⟩
        · refine ⟨hx1, ?_, hy1, ?_⟩ <;>
            simp only [Bounds.subdivide, Bounds.center_x, Bounds.center_y] at * <;>
            linarith
        · intro q' hq'
          have hq := (hC _ px py).mp hq'
          fin_cases q' <;>
            simp only [Bounds.subdivide, Bounds.center_x, Bounds.center_y,
              Fin.isValue] at hq hx hy ⊢ <;>
            first
              | rfl
              | (exfalso; obtain ⟨a1, a2, a3, a4⟩ := hq; linarith)
    · rintro ⟨q, hq, -⟩
      refine (hC b px py).mpr ?_
      fin_cases q <;>
        (obtain ⟨a1, a2, a3, a4⟩ :=
          (hC _ px py).mp (by simpa using hq)) <;>
        simp only [Bounds.subdivide, Bounds.center_x, Bounds.center_y,
          Fin.isValue] at a1 a2 a3 a4 <;>
        refine ⟨by linarith, by linarith, by linarith, by linarith⟩

/-- Claim C7 (status: confirmed).  One leapfrog step produces
`x_new = x + v + 0.5·a_old`, then `a_new` as the direct-mode acceleration
evaluated at the particle relocated to `x_new` with its old position passed
for self-exclusion, then `v_new = v + 0.5·(a_new + a_old)`; mass and status
are unchanged. -/
theorem c7_leapfrog_step (sq : ℚ → ℚ) (phys : PhysicsSpace)
    (obj : PhysicsObject) :
    (leapfrog_integration sq phys obj).position_vector =
      (obj.position_vector.1 + obj.direction_vector.1 +
         obj.acceleration_vector.1 / 2,
       obj.position_vector.2 + obj.direction_vector.2 +
         obj.acceleration_vector.2 / 2) ∧
    (leapfrog_integration sq phys obj).acceleration_vector =
      acceleration sq phys
        { obj with
            position_vector := (leapfrog_integration sq phys obj).position_vector }
        obj.position_vector ∧
    (leapfrog_integration sq phys obj).direction_vector =
      (obj.direction_vector.1 +
         ((leapfrog_integration sq phys obj).acceleration_vector.1 +
            obj.acceleration_vector.1) / 2,
       obj.direction_vector.2 +
         ((leapfrog_integration sq phys obj).acceleration_vector.2 +
            obj.acceleration_vector.2) / 2) ∧
    (leapfrog_integration sq phys obj).mass = obj.mass ∧
    (leapfrog_integration sq phys obj).status = obj.status := by
  unfold leapfrog_integration
  refine ⟨?_, rfl, ?_, rfl, rfl⟩ <;>
    simp only [vadd, smul, Prod.mk.injEq] <;> constructor <;> ring

/-- Claim C10 (status: confirmed).  A source particle whose position
coincides with the query particle's new position, or with its old pre-step
position, contributes exactly zero to the direct-mode acceleration sum: the
guard of `PhysicsSpace::acceleration` replaces the would-be division by
zero with the zero vector.  (The only hypothesis on the square-root
parameter is that it sends 0 to 0, as `0.0.pow(0.5)` does.) -/
theorem c10_coincident_source_contributes_zero (sq : ℚ → ℚ)
    (h0 : sq 0 = 0) (g : ℚ) (e1pos old_pos : ℚ × ℚ) (e2 : PhysicsObject)
    (hc : e2.position_vector = e1pos ∨ e2.position_vector = old_pos) :
    accTerm sq g e1pos old_pos e2 = ((0 : ℚ), (0 : ℚ)) := by
  unfold accTerm distance vsub scalar_product
  rcases hc with hc | hc <;> rw [hc] <;> simp [h0]

/-- Witness for claim C10: a source of mass 5 sitting exactly at the query
particle's position exerts no force. -/
theorem c10_witness :
    accTerm sqT 1 ((2 : ℚ), (3 : ℚ)) ((9 : ℚ), (9 : ℚ))
      ⟨(2, 3), (0, 0), (0, 0), 5, .Default⟩ = ((0 : ℚ), (0 : ℚ)) :=
  c10_coincident_source_contributes_zero sqT (by norm_num [sqT]) 1
    ((2 : ℚ), (3 : ℚ)) ((9 : ℚ), (9 : ℚ)) _ (Or.inl rfl)

/-- Claim C1, counterexample (status: corrected).  Two unit masses at
`(0,0)` and `(3,0)` with `G = 1` and softening constant 4: the direct-mode
acceleration on the particle at the origin is the unsoftened `(1/9, 0)`,
while the Plummer-softened pairwise sum claimed by the specification is
`(3/125, 0)`; the two differ. -/
theorem c1_counterexample_softening_absent :
    acceleration sqT physC1
        ⟨(0, 0), (0, 0), (0, 0), 1, .Default⟩ ((0 : ℚ), (0 : ℚ)) =
      (1/9, 0) ∧
    specSoftenedDirectAccel sqT physC1 0 = (3/125, 0) ∧
    ((1/9 : ℚ), (0 : ℚ)) ≠ ((3/125 : ℚ), (0 : ℚ)) := by
  refine ⟨?_, ?_, by norm_num⟩
  · norm_num [acceleration, accTerm, distance, scalar_product, vsub, vadd,
      smul, physC1, sqT]
  · norm_num [specSoftenedDirectAccel, plummerAccel, physC1, sqT, vadd,
      List.enum, List.getD, dummyObj]

/-- Claim C1, amended (status: corrected).  The direct-mode acceleration is
the pairwise sum, over every entry of the element list, of the *unsoftened*
inverse-square law `(dx,dy) · (G·m) / dist³` (with `dist` the computed
distance), a summand being zero whenever the distance to the particle's
position or to its old position is zero; no softening constant enters. -/
theorem c1_amended_direct_accel_is_unsoftened_sum (sq : ℚ → ℚ)
    (phys : PhysicsSpace) (e1 : PhysicsObject) (old_pos : ℚ × ℚ) :
    acceleration sq phys e1 old_pos =
      unsoftenedDirectSum sq phys e1.position_vector old_pos := by
  have hterm :
      accTerm sq phys.gravitational_constant e1.position_vector old_pos =
        unsoftenedTerm sq phys.gravitational_constant e1.position_vector
          old_pos := by
    funext e2
    unfold accTerm unsoftenedTerm
    by_cases h :
        distance sq e2.position_vector e1.position_vector = 0 ∨
          distance sq e2.position_vector old_pos = 0
    · simp [h]
    · rw [if_pos h, if_neg h]
      push_neg at h
      obtain ⟨h1, h2⟩ := h
      simp only [smul, vsub, Prod.mk.injEq]
      constructor <;> ring
  unfold acceleration unsoftenedDirectSum
  rw [hterm]

/-- Claim C8 (status: confirmed).  On any tree node that does not
simultaneously carry children and a resident index (no node produced by the
code does), the force query returns: zero if the node is massless; zero if
it is a leaf whose resident index is the excluded index; the softened
point-mass law `(dx,dy)·(G·m)/((d²+ε²)·sqrt(d²+ε²))` toward the center of
mass if the node is a leaf or its larger side `s` satisfies `s² < θ²·d²`;
otherwise the sum of the four children's recursive contributions. -/
theorem c8_calculate_force_cases (sq : ℚ → ℚ) (pos : ℚ × ℚ)
    (theta g softening_sq : ℚ) (skip_index : ℕ) (b : Bounds) (com : ℚ × ℚ)
    (tm : ℚ) (ch : QuadChildren) (pidx : Option ℕ)
    (hw : isLeafC ch = false → pidx = none) :
    calculate_force sq pos theta g softening_sq skip_index
        (.mk b com tm ch pidx) =
      if tm = 0 then ((0 : ℚ), (0 : ℚ))
      else if isLeafC ch = true ∧ pidx = some skip_index then
        ((0 : ℚ), (0 : ℚ))
      else if isLeafC ch = true ∨
          max b.width b.height * max b.width b.height <
            theta * theta *
              ((com.1 - pos.1) * (com.1 - pos.1) +
                (com.2 - pos.2) * (com.2 - pos.2)) then
        plummerAccel sq g softening_sq tm (com.1 - pos.1) (com.2 - pos.2)
      else
        match ch with
        | .leaf => ((0 : ℚ), (0 : ℚ))
        | .four c0 c1 c2 c3 =>
          vadd
            (vadd
              (vadd (calculate_force sq pos theta g softening_sq skip_index c0)
                (calculate_force sq pos theta g softening_sq skip_index c1))
              (calculate_force sq pos theta g softening_sq skip_index c2))
            (calculate_force sq pos theta g softening_sq skip_index c3) := by
  cases ch with
  | leaf =>
    by_cases h0 : tm = 0
    · simp [calculate_force, h0]
    · by_cases hp : pidx = some skip_index
      · simp [calculate_force, h0, hp, isLeafC]
      · simp only [calculate_force, isLeafC, Bool.true_or, if_neg h0,
          if_neg hp, true_and, eq_self_iff_true, true_or, if_true,
          plummerAccel, Prod.mk.injEq]
        constructor <;> ring
  | four c0 c1 c2 c3 =>
    have hpn : pidx = none := hw rfl
    by_cases h0 : tm = 0
    · simp [calculate_force, h0]
    · have hp : ¬pidx = some skip_index := by simp [hpn]
      by_cases hf :
          max b.width b.height * max b.width b.height <
            theta * theta *
              ((com.1 - pos.1) * (com.1 - pos.1) +
                (com.2 - pos.2) * (com.2 - pos.2))
      · simp only [calculate_force, isLeafC, Bool.false_or, if_neg h0,
          if_neg hp, Bool.false_eq_true, false_and, if_false,
          decide_eq_true_eq, if_pos hf, false_or, plummerAccel,
          Prod.mk.injEq]
        constructor <;> ring
      · simp only [calculate_force, isLeafC, Bool.false_or, if_neg h0,
          if_neg hp, Bool.false_eq_true, false_and, if_false,
          decide_eq_true_eq, if_neg hf, false_or, vadd, zero_add]

/-- Witness for claim C8: a one-particle leaf of mass 1 with center of mass
`(3,4)`, queried from the origin with `G = 1`, zero softening and a
non-matching excluded index, yields the point-mass law value
`(3/125, 4/125)`. -/
theorem c8_witness :
    calculate_force sqT ((0 : ℚ), (0 : ℚ)) 1 1 0 5 c8tW =
      ((3/125 : ℚ), (4/125 : ℚ)) := by
  have h :=
    c8_calculate_force_cases sqT ((0 : ℚ), (0 : ℚ)) 1 1 0 5 ⟨0, 0, 1, 1⟩
      (3, 4) 1 .leaf (some 0) (by intro hx; cases hx)
  rw [show c8tW = .mk ⟨0, 0, 1, 1⟩ (3, 4) 1 .leaf (some 0) from rfl, h]
  norm_num [plummerAccel, isLeafC, sqT]

/-- Claim C5 (status: code bug).  Three unit masses at `(0,0)`, `(1,0)`,
`(2,0)` with merge threshold 15: the live mass before the merge-resolution
pass is 3, but afterwards it is 4.  At `i = 0` the code merges particles 1
and 2 into particle 0 (mass 3); at `i = 1` particle 1 has status
`MergedInto 0`, yet the scan body does not check particle 2's status and
merges the already-absorbed particle 2 into particle 0 a second time,
yielding mass 4. -/
theorem c5_merge_pass_duplicates_mass :
    liveMass physC5.elements = 3 ∧
    liveMass (mergePassResult sqT physC5) = 4 := by
  constructor
  · norm_num [liveMass, retainDefault, physC5]
  · have hd : ∀ k : ℕ,
        decide (ObjectStatus.MergedInto k = ObjectStatus.Default) = false :=
      fun k => by simp
    norm_num [liveMass, retainDefault, mergePassResult, tickLoop, tickBody,
      checkMerge, cmLoop, cmBody, PhysicsSpace.merge, setStatus, distance,
      scalar_product, vsub, vadd, smul, physC5, sqT, dummyObj, List.getD,
      List.set, List.filter, hd]

/-- Claim C6, counterexample (status: corrected).  A single particle at
`(5,0)` (inside the removal radius 10) with velocity `(100,0)`: it survives
the pruning step, and the subsequent integration moves it to `(105,0)`,
whose distance 105 from the origin exceeds the radius — so after the tick a
surviving live particle does exceed the configured removal radius. -/
theorem c6_counterexample_survivor_beyond_radius :
    (PhysicsSpace.tick sqT physC6).elements =
      [⟨(105, 0), (100, 0), (0, 0), 1, .Default⟩] ∧
    physC6.radius <
      distance sqT ((0 : ℚ), (0 : ℚ)) ((105 : ℚ), (0 : ℚ)) := by
  constructor
  · norm_num [PhysicsSpace.tick, retainDefault, mergePassResult, tickLoop,
      tickBody, checkMerge, cmLoop, cmBody, leapfrog_integration,
      acceleration, accTerm, PhysicsSpace.merge, setStatus, distance,
      scalar_product, vsub, vadd, smul, physC6, sqT, dummyObj, List.getD,
      List.set]
  · norm_num [distance, scalar_product, vsub, physC6, sqT]

/-! ## List access helper lemmas for the loop invariants -/

/-- `getD` after `set`: the new value exactly when the indices agree and the
write was in range. -/
theorem getD_set {α : Type} (l : List α) (i j : ℕ) (a d : α) :
    (l.set i a).getD j d =
      if i = j ∧ i < l.length then a else l.getD j d := by
  induction l generalizing i j with
  | nil => simp
  | cons x xs ih =>
    cases i with
    | zero =>
      cases j with
      | zero => simp
      | succ j => simp
    | succ i =>
      cases j with
      | zero => simp
      | succ j => simpa [Nat.succ_lt_succ_iff] using ih i j

/-- `getD` beyond the length is the fall-back. -/
theorem getD_ge {α : Type} (l : List α) (n : ℕ) (d : α)
    (h : l.length ≤ n) : l.getD n d = d := by
  induction l generalizing n with
  | nil => simp
  | cons x xs ih =>
    cases n with
    | zero => simp at h
    | succ n => simpa using ih n (by simpa using h)

/-- In-range `getD` is a member of the list. -/
theorem getD_mem {α : Type} (l : List α) (n : ℕ) (d : α)
    (h : n < l.length) : l.getD n d ∈ l := by
  induction l generalizing n with
  | nil => simp at h
  | cons x xs ih =>
    cases n with
    | zero => simp
    | succ n =>
      simp only [List.getD_cons_succ]
      exact List.mem_cons_of_mem x (ih n (by simpa using h))

/-! ## Loop invariants for the pruning argument (claim C6) -/

/-- One inner merge-scan step preserves `NoTarget f`, preserves slot `f`'s
position, and never resurrects slot `f`'s status to `Default`, provided
`i ≠ f` or slot `i` is not currently `Default`. -/
theorem cmBody_inv (sq : ℚ → ℚ) (phys : PhysicsSpace) (f i j : ℕ)
    (els : List PhysicsObject) (hNT : NoTarget f els)
    (hi : i ≠ f ∨ (els.getD i dummyObj).status ≠ ObjectStatus.Default) :
    NoTarget f (cmBody sq phys els i j) ∧
    ((cmBody sq phys els i j).getD f dummyObj).position_vector =
      (els.getD f dummyObj).position_vector ∧
    ((els.getD f dummyObj).status ≠ ObjectStatus.Default →
      ((cmBody sq phys els i j).getD f dummyObj).status ≠
        ObjectStatus.Default) := by
  unfold cmBody
  by_cases hd :
      distance sq (els.getD i dummyObj).position_vector
          (els.getD j dummyObj).position_vector <
        phys.epsilon
  · simp only [if_pos hd]
    rcases hs : (els.getD i dummyObj).status with _ | _ | k <;>
      simp only [hs]
    · -- arm `Default`: merge `j` into `i`
      have hif : i ≠ f := by
        rcases hi with h | h
        · exact h
        · exact absurd hs h
      refine ⟨?_, ?_, ?_⟩
      · intro j'
        rw [getD_set]
        split_ifs with h1
        · simp [setStatus, hif]
        · rw [getD_set]
          split_ifs with h2
          · simp [PhysicsSpace.merge]
          · exact hNT j'
      · rw [getD_set]
        split_ifs with h1
        · obtain ⟨hj, _⟩ := h1
          rw [← hj]
          simp [setStatus]
        · rw [getD_set]
          split_ifs with h2
          · exact absurd h2.1 hif
          · rfl
      · intro hdf
        rw [getD_set]
        split_ifs with h1
        · simp [setStatus]
        · rw [getD_set]
          split_ifs with h2
          · exact absurd h2.1 hif
          · exact hdf
    · -- arm `Deleted`: no write
      exact ⟨hNT, by simp, fun h => h⟩
    · -- arm `MergedInto k`: merge `j` into `k`
      have hkf : k ≠ f := by
        intro hk
        exact hNT i (by rw [hs, hk])
      refine ⟨?_, ?_, ?_⟩
      · intro j'
        rw [getD_set]
        split_ifs with h1
        · simp [setStatus, hkf]
        · rw [getD_set]
          split_ifs with h2
          · simp [PhysicsSpace.merge]
          · exact hNT j'
      · rw [getD_set]
        split_ifs with h1
        · obtain ⟨hj, _⟩ := h1
          rw [← hj]
          simp [setStatus]
        · rw [getD_set]
          split_ifs with h2
          · exact absurd h2.1 hkf
          · rfl
      · intro hdf
        rw [getD_set]
        split_ifs with h1
        · simp [setStatus]
        · rw [getD_set]
          split_ifs with h2
          · exact absurd h2.1 hkf
          · exact hdf
  · simp only [if_neg hd]
    exact ⟨hNT, by simp, fun h => h⟩

/-- The inner merge-scan loop preserves the `cmBody_inv` facts. -/
theorem cmLoop_inv (sq : ℚ → ℚ) (phys : PhysicsSpace) (f i : ℕ) :
    ∀ (m j : ℕ) (els : List PhysicsObject), NoTarget f els →
      (i ≠ f ∨ (els.getD i dummyObj).status ≠ ObjectStatus.Default) →
      NoTarget f (cmLoop sq phys els i j m) ∧
      ((cmLoop sq phys els i j m).getD f dummyObj).position_vector =
        (els.getD f dummyObj).position_vector ∧
      ((els.getD f dummyObj).status ≠ ObjectStatus.Default →
        ((cmLoop sq phys els i j m).getD f dummyObj).status ≠
          ObjectStatus.Default) := by
  intro m
  induction m with
  | zero =>
    intro j els hNT _
    exact ⟨hNT, rfl, fun h => h⟩
  | succ m ih =>
    intro j els hNT hi
    obtain ⟨h1, h2, h3⟩ := cmBody_inv sq phys f i j els hNT hi
    have hi' :
        i ≠ f ∨
          ((cmBody sq phys els i j).getD i dummyObj).status ≠
            ObjectStatus.Default := by
      rcases hi with h | h
      · exact Or.inl h
      · by_cases hif : i = f
        · subst hif
          exact Or.inr (h3 h)
        · exact Or.inl hif
    obtain ⟨g1, g2, g3⟩ := ih (j + 1) (cmBody sq phys els i j) h1 hi'
    exact ⟨g1, g2.trans h2, fun h => g3 (h3 h)⟩

/-- One outer tick-loop step at an index other than `f` preserves the
invariant facts. -/
theorem tickBody_inv (sq : ℚ → ℚ) (phys : PhysicsSpace) (f t : ℕ)
    (els : List PhysicsObject) (ht : t ≠ f) (hNT : NoTarget f els) :
    NoTarget f (tickBody sq phys els t) ∧
    ((tickBody sq phys els t).getD f dummyObj).position_vector =
      (els.getD f dummyObj).position_vector ∧
    ((els.getD f dummyObj).status ≠ ObjectStatus.Default →
      ((tickBody sq phys els t).getD f dummyObj).status ≠
        ObjectStatus.Default) := by
  unfold tickBody
  rcases hs : (els.getD t dummyObj).status with _ | _ | k <;>
    simp only [hs]
  · by_cases hr :
        phys.radius <
          distance sq ((0 : ℚ), (0 : ℚ))
            (els.getD t dummyObj).position_vector
    · simp only [if_pos hr]
      refine ⟨?_, ?_, ?_⟩
      · intro j'
        rw [getD_set]
        split_ifs with h1
        · simp [setStatus]
        · exact hNT j'
      · rw [getD_set]
        split_ifs with h1
        · exact absurd h1.1 ht
        · rfl
      · intro hdf
        rw [getD_set]
        split_ifs with h1
        · simp [setStatus]
        · exact hdf
    · simp only [if_neg hr]
      exact cmLoop_inv sq phys f t _ (t + 1) els hNT (Or.inl ht)
  · exact ⟨hNT, by simp, fun h => h⟩
  · exact cmLoop_inv sq phys f t _ (t + 1) els hNT (Or.inl ht)

/-- The boundary step: at index `f` itself, a slot holding a far particle
(or one already absorbed) ends the step with a non-`Default` status. -/
theorem tickBody_boundary (sq : ℚ → ℚ) (phys : PhysicsSpace) (f : ℕ)
    (els : List PhysicsObject) (hNT : NoTarget f els)
    (hflen : f < els.length)
    (hfar :
      phys.radius <
        distance sq ((0 : ℚ), (0 : ℚ))
          (els.getD f dummyObj).position_vector) :
    NoTarget f (tickBody sq phys els f) ∧
    ((tickBody sq phys els f).getD f dummyObj).status ≠
      ObjectStatus.Default := by
  unfold tickBody
  rcases hs : (els.getD f dummyObj).status with _ | _ | k <;>
    simp only [hs]
  · simp only [if_pos hfar]
    constructor
    · intro j'
      rw [getD_set]
      split_ifs with h1
      · simp [setStatus]
      · exact hNT j'
    · rw [getD_set, if_pos ⟨rfl, hflen⟩]
      simp [setStatus]
  · refine ⟨hNT, ?_⟩
    simp
  · obtain ⟨g1, g2, g3⟩ :=
      cmLoop_inv sq phys f f _ (f + 1) els hNT (Or.inr (by rw [hs]; simp))
    exact ⟨g1, g3 (by rw [hs]; simp)⟩

/-- Phase 1: all indices processed before `f` preserve `NoTarget` and slot
`f`'s position. -/
theorem tickLoop_inv_pre (sq : ℚ → ℚ) (phys : PhysicsSpace) (f : ℕ) :
    ∀ (m i : ℕ) (els : List PhysicsObject), i + m ≤ f → NoTarget f els →
      NoTarget f (tickLoop sq phys els i m) ∧
      ((tickLoop sq phys els i m).getD f dummyObj).position_vector =
        (els.getD f dummyObj).position_vector := by
  intro m
  induction m with
  | zero => exact fun i els _ hNT => ⟨hNT, rfl⟩
  | succ m ih =>
    intro i els hm hNT
    have hif : i ≠ f := by omega
    obtain ⟨h1, h2, _⟩ := tickBody_inv sq phys f i els hif hNT
    obtain ⟨g1, g2⟩ := ih (i + 1) (tickBody sq phys els i) (by omega) h1
    exact ⟨g1, g2.trans h2⟩

/-- Phase 2: all indices processed after `f` keep slot `f` non-`Default`. -/
theorem tickLoop_inv_post (sq : ℚ → ℚ) (phys : PhysicsSpace) (f : ℕ) :
    ∀ (m i : ℕ) (els : List PhysicsObject), f < i → NoTarget f els →
      (els.getD f dummyObj).status ≠ ObjectStatus.Default →
      ((tickLoop sq phys els i m).getD f dummyObj).status ≠
        ObjectStatus.Default := by
  intro m
  induction m with
  | zero => exact fun i els _ _ h => h
  | succ m ih =>
    intro i els hfi hNT hdf
    have hif : i ≠ f := by omega
    obtain ⟨h1, _, h3⟩ := tickBody_inv sq phys f i els hif hNT
    exact ih (i + 1) (tickBody sq phys els i) (by omega) h1 (h3 hdf)

/-- Splitting the tick loop. -/
theorem tickLoop_add (sq : ℚ → ℚ) (phys : PhysicsSpace) :
    ∀ (a b i : ℕ) (els : List PhysicsObject),
      tickLoop sq phys els i (a + b) =
        tickLoop sq phys (tickLoop sq phys els i a) (i + a) b := by
  intro a
  induction a with
  | zero =>
    intro b i els
    rw [Nat.zero_add, Nat.add_zero]
    rfl
  | succ a ih =>
    intro b i els
    have h1 : a + 1 + b = (a + b) + 1 := by omega
    rw [h1]
    show tickLoop sq phys (tickBody sq phys els i) (i + 1) (a + b) = _
    rw [ih b (i + 1) (tickBody sq phys els i)]
    have h2 : i + 1 + a = i + (a + 1) := by omega
    rw [h2]
    rfl

/-- Unfolding one step of the tick loop. -/
theorem tickLoop_succ (sq : ℚ → ℚ) (phys : PhysicsSpace)
    (els : List PhysicsObject) (i m : ℕ) :
    tickLoop sq phys els i (m + 1) =
      tickLoop sq phys (tickBody sq phys els i) (i + 1) m := rfl

/-- `cmBody` preserves the list length. -/
theorem cmBody_length (sq : ℚ → ℚ) (phys : PhysicsSpace)
    (els : List PhysicsObject) (i j : ℕ) :
    (cmBody sq phys els i j).length = els.length := by
  unfold cmBody
  by_cases hd :
      distance sq (els.getD i dummyObj).position_vector
          (els.getD j dummyObj).position_vector <
        phys.epsilon
  · simp only [if_pos hd]
    rcases hs : (els.getD i dummyObj).status with _ | _ | k <;>
      simp [hs]
  · simp only [if_neg hd]

/-- `cmLoop` preserves the list length. -/
theorem cmLoop_length (sq : ℚ → ℚ) (phys : PhysicsSpace) (i : ℕ) :
    ∀ (m j : ℕ) (els : List PhysicsObject),
      (cmLoop sq phys els i j m).length = els.length := by
  intro m
  induction m with
  | zero => intro j els; rfl
  | succ m ih =>
    intro j els
    rw [show cmLoop sq phys els i j (m + 1) =
        cmLoop sq phys (cmBody sq phys els i j) i (j + 1) m from rfl]
    rw [ih (j + 1) (cmBody sq phys els i j), cmBody_length]

/-- `tickBody` preserves the list length. -/
theorem tickBody_length (sq : ℚ → ℚ) (phys : PhysicsSpace)
    (els : List PhysicsObject) (i : ℕ) :
    (tickBody sq phys els i).length = els.length := by
  unfold tickBody
  rcases hs : (els.getD i dummyObj).status with _ | _ | k <;>
    simp only [hs]
  · by_cases hr :
        phys.radius <
          distance sq ((0 : ℚ), (0 : ℚ))
            (els.getD i dummyObj).position_vector
    · simp only [if_pos hr]
      simp
    · simp only [if_neg hr]
      unfold checkMerge
      exact cmLoop_length sq phys i _ (i + 1) els
  · unfold checkMerge
    exact cmLoop_length sq phys i _ (i + 1) els

/-- `tickLoop` preserves the list length. -/
theorem tickLoop_length (sq : ℚ → ℚ) (phys : PhysicsSpace) :
    ∀ (m i : ℕ) (els : List PhysicsObject),
      (tickLoop sq phys els i m).length = els.length := by
  intro m
  induction m with
  | zero => intro i els; rfl
  | succ m ih =>
    intro i els
    rw [tickLoop_succ, ih (i + 1) (tickBody sq phys els i), tickBody_length]

/-- Claim C6, amended (status: corrected).  Every particle whose distance
from the origin exceeds the removal radius at the start of the tick (before
the pruning/merge loop) ends the loop with a non-`Default` status, and is
therefore excluded from the retained live set; surviving particles may
exceed the radius after integration (see the counterexample), and are only
removed at the next tick's pruning. -/
theorem c6_amended_far_particle_not_live (sq : ℚ → ℚ)
    (phys : PhysicsSpace) (f : ℕ)
    (hall : ∀ e ∈ phys.elements, e.status = ObjectStatus.Default)
    (hf : f < phys.elements.length)
    (hfar :
      phys.radius <
        distance sq ((0 : ℚ), (0 : ℚ))
          (phys.elements.getD f dummyObj).position_vector) :
    ((mergePassResult sq phys).getD f dummyObj).status ≠
      ObjectStatus.Default := by
  have hNT0 : NoTarget f phys.elements := by
    intro j
    by_cases hj : j < phys.elements.length
    · rw [hall _ (getD_mem phys.elements j dummyObj hj)]
      simp
    · rw [getD_ge phys.elements j dummyObj (by omega)]
      simp [dummyObj]
  have hn : phys.elements.length =
      f + (1 + (phys.elements.length - f - 1)) := by omega
  unfold mergePassResult
  rw [hn, tickLoop_add, Nat.zero_add, Nat.add_comm 1 _, tickLoop_succ]
  obtain ⟨hNT1, hpos1⟩ :=
    tickLoop_inv_pre sq phys f f 0 phys.elements (by omega) hNT0
  obtain ⟨hNT2, hst2⟩ :=
    tickBody_boundary sq phys f (tickLoop sq phys phys.elements 0 f) hNT1
      (by rw [tickLoop_length]; exact hf) (by rw [hpos1]; exact hfar)
  exact tickLoop_inv_post sq phys f _ (f + 1)
    (tickBody sq phys (tickLoop sq phys phys.elements 0 f) f) (by omega)
    hNT2 hst2

/-- Witness for the amended claim C6: a single particle at `(50, 0)` with
removal radius 10 is marked non-live by the pruning loop. -/
theorem c6_amended_witness :
    ((mergePassResult sqT physC6W).getD 0 dummyObj).status ≠
      ObjectStatus.Default :=
  c6_amended_far_particle_not_live sqT physC6W 0
    (by intro e he; simp [physC6W] at he; rw [he])
    (by simp [physC6W])
    (by norm_num [physC6W, distance, scalar_product, vsub, sqT, dummyObj])
